import Mathlib

/-!
Shallow embedding of the product-catalog core of the modern-monorepo
repository: the slug deriver (slugify), the catalog lookups
(getProducts, getProductById, getProductBySlug), the HTTP product
routes, and the price-formatting collaborator (formatPrice).

Strings are modelled as lists of characters via String.data, processed
character-wise; JavaScript numbers holding integral ids and prices are
modelled as Int; a JavaScript function that can throw is modelled with
Except; a JavaScript parseInt result is Option Int, none standing for
NaN.  Character classes are stated on code points, matching the ASCII
semantics of the regexes in the source.
-/

/-- Decimal digit test: code points 48-57, the digit part of the regex
word class. -/
def isDigitChar (c : Char) : Bool :=
  48 ≤ c.toNat && c.toNat ≤ 57

/-- ASCII letter test: code points 65-90 and 97-122, the letter part of
the regex word class. -/
def isAsciiLetterChar (c : Char) : Bool :=
  (65 ≤ c.toNat && c.toNat ≤ 90) || (97 ≤ c.toNat && c.toNat ≤ 122)

/-- The regex word class: ASCII letters, decimal digits, underscore. -/
def isWordChar (c : Char) : Bool :=
  isAsciiLetterChar c || isDigitChar c || c == '_'

/-- The regex whitespace class, restricted to the ASCII whitespace
characters: space, tab, line feed, vertical tab, form feed, carriage
return. -/
def isSpaceChar (c : Char) : Bool :=
  c == ' ' || c == '\t' || c == '\n' || c == '\x0b' || c == '\x0c' || c == '\r'

/-- JavaScript toLowerCase, character-wise on the ASCII range: an
uppercase ASCII letter (code points 65-90) maps to its code point plus
32, every other character is unchanged. -/
def jsToLower (c : Char) : Char :=
  if 65 ≤ c.toNat && c.toNat ≤ 90 then Char.ofNat (c.toNat + 32) else c

/-- JavaScript trim: strip whitespace from both ends of the string. -/
def trimChars (l : List Char) : List Char :=
  ((l.dropWhile isSpaceChar).reverse.dropWhile isSpaceChar).reverse

/-- Global regex replacement of every maximal run of characters matching
p by the single character r.  The Boolean argument records whether the
previous character belonged to a run. -/
def replaceRunAux (p : Char → Bool) (r : Char) : Bool → List Char → List Char
  | _, [] => []
  | inRun, c :: cs =>
    if p c then
      if inRun then replaceRunAux p r true cs
      else r :: replaceRunAux p r true cs
    else c :: replaceRunAux p r false cs

/-- Global replacement of every maximal run of p-characters by one r. -/
def replaceRun (p : Char → Bool) (r : Char) (l : List Char) : List Char :=
  replaceRunAux p r false l

/-- Characters kept by the special-character removal step of slugify:
word characters, whitespace, and hyphen survive; everything else is
removed. -/
def keepChar (c : Char) : Bool :=
  isWordChar c || isSpaceChar c || c == '-'

/-- slugify from packages/lib/backend-server/src/index.ts, on character
lists: lowercase, trim, remove special characters, replace whitespace
runs by a hyphen, collapse hyphen runs. -/
def slugifyChars (l : List Char) : List Char :=
  replaceRun (fun c => c == '-') '-'
    (replaceRun isSpaceChar '-'
      ((trimChars (l.map jsToLower)).filter keepChar))

/-- slugify on strings. -/
def slugify (s : String) : String :=
  String.mk (slugifyChars s.data)

/-- Spec step 1: lowercase the entire string. -/
def specStep1 (l : List Char) : List Char :=
  l.map jsToLower

/-- Spec step 2: trim leading and trailing whitespace. -/
def specStep2 (l : List Char) : List Char :=
  trimChars l

/-- Spec step 3 as the claim words it: remove every character that is
not a letter, digit, underscore, or whitespace; in particular a hyphen
is removed. -/
def specStep3Claimed (l : List Char) : List Char :=
  l.filter (fun c => isWordChar c || isSpaceChar c)

/-- Spec step 3 as the code has it: a hyphen also survives the removal
step. -/
def specStep3Amended (l : List Char) : List Char :=
  l.filter (fun c => isWordChar c || isSpaceChar c || c == '-')

/-- Spec step 4: replace every run of one-or-more whitespace characters
with a single hyphen. -/
def specStep4 (l : List Char) : List Char :=
  replaceRun isSpaceChar '-' l

/-- Spec step 5: collapse every run of one-or-more hyphens into a single
hyphen. -/
def specStep5 (l : List Char) : List Char :=
  replaceRun (fun c => c == '-') '-' l

/-- The five-step pipeline exactly as the claim words it, with step 3
removing hyphens. -/
def slugifySpecClaimed (s : String) : String :=
  String.mk (specStep5 (specStep4 (specStep3Claimed (specStep2 (specStep1 s.data)))))

/-- The five-step pipeline with step 3 keeping hyphens. -/
def slugifySpecAmended (s : String) : String :=
  String.mk (specStep5 (specStep4 (specStep3Amended (specStep2 (specStep1 s.data)))))

/-- Product from packages/features/products/backend/src/data.ts. -/
structure Product where
  id : Int
  name : String
  price : Int
  inStock : Bool
deriving DecidableEq, Repr

/-- ProductResponse: a Product plus its derived slug. -/
structure ProductResponse where
  id : Int
  name : String
  price : Int
  inStock : Bool
  slug : String
deriving DecidableEq, Repr

/-- Spread of a product together with its freshly derived slug, as built
in the route handlers. -/
def toProductResponse (p : Product) : ProductResponse :=
  { id := p.id, name := p.name, price := p.price, inStock := p.inStock,
    slug := slugify p.name }

/-- getProducts: the collection itself, in insertion order.  The module
level fixture array is modelled as an explicit collection argument. -/
def getProducts (products : List Product) : List Product :=
  products

/-- getProductById: the first product whose id equals the argument. -/
def getProductById (products : List Product) (id : Int) : Option Product :=
  products.find? (fun p => p.id == id)

/-- getProductBySlug: the first product whose derived slug equals the
argument. -/
def getProductBySlug (products : List Product) (slug : String) : Option Product :=
  products.find? (fun p => slugify p.name == slug)

/-- GET /products: every product augmented with its slug. -/
def listProductsRoute (products : List Product) : List ProductResponse :=
  (getProducts products).map (fun p => toProductResponse p)

/-- Result of a single-product route: a 200 with the product, or an
error status with an error body. -/
inductive RouteResult where
  | found : ProductResponse → RouteResult
  | missing : Nat → String → RouteResult
deriving DecidableEq, Repr

/-- Leading run of decimal digits of a character list, as a value; none
when the run is empty. -/
def parseDecDigits (l : List Char) : Option Nat :=
  let ds := l.takeWhile isDigitChar
  if ds.isEmpty then none
  else some (ds.foldl (fun acc c => 10 * acc + (c.toNat - 48)) 0)

/-- parseInt(s, 10): skip leading whitespace, read an optional sign,
then the leading run of decimal digits, ignoring any trailing
characters; none models NaN, returned when the digit run is empty. -/
def jsParseInt (s : String) : Option Int :=
  match s.data.dropWhile isSpaceChar with
  | '-' :: rest => (parseDecDigits rest).map (fun n => -(n : Int))
  | '+' :: rest => (parseDecDigits rest).map (fun n => (n : Int))
  | l => (parseDecDigits l).map (fun n => (n : Int))

/-- The parseInt result fed into getProductById: NaN compares unequal to
every numeric id, so an unparsable id matches no product. -/
def lookupParsedId (products : List Product) : Option Int → Option Product
  | none => none
  | some n => getProductById products n

/-- GET /products/:id handler: parse the path parameter, look the
product up, answer 404 with the error body when nothing matches. -/
def productByIdRoute (products : List Product) (idStr : String) : RouteResult :=
  match lookupParsedId products (jsParseInt idStr) with
  | none => RouteResult.missing 404 "Product not found"
  | some p => RouteResult.found (toProductResponse p)

/-- GET /products/by-slug/:slug handler. -/
def productBySlugRoute (products : List Product) (slugStr : String) : RouteResult :=
  match getProductBySlug products slugStr with
  | none => RouteResult.missing 404 "Product not found"
  | some p => RouteResult.found (toProductResponse p)

/-- Two-decimal rendering of n/100 for nonnegative integer cents: the
exact quotient in major units followed by the two digits of the
remainder. -/
def renderCents (n : Nat) : String :=
  toString (n / 100) ++ "." ++
    String.mk [Char.ofNat (48 + n % 100 / 10), Char.ofNat (48 + n % 10)]

/-- formatPrice from the frontend utilities: negative cents throw,
otherwise a dollar string with two decimal places. -/
def formatPrice (cents : Int) : Except String String :=
  if cents < 0 then Except.error "Price cannot be negative"
  else Except.ok ("$" ++ renderCents cents.toNat)

/-- A character acceptable in a finished slug: a lowercase ASCII letter,
a decimal digit, an underscore, or a hyphen. -/
def isSlugChar (c : Char) : Bool :=
  (97 ≤ c.toNat && c.toNat ≤ 122) || isDigitChar c || c == '_' || c == '-'

/-- No two adjacent characters of the list satisfy the predicate. -/
def noTwoAdjacent (p : Char → Bool) : List Char → Bool
  | a :: b :: rest => (!(p a && p b)) && noTwoAdjacent p (b :: rest)
  | _ => true

/-- Fixture product used by the spec's lookup-correctness examples. -/
def widget : Product :=
  { id := 1, name := "Widget", price := 500, inStock := true }

/-- Second fixture product of the spec's lookup-correctness examples. -/
def gadget : Product :=
  { id := 2, name := "Gadget", price := 0, inStock := false }

/-- The two-product demo collection from the spec's testable
properties. -/
def demoProducts : List Product :=
  [widget, gadget]

/-- A valid scalar value below the surrogate range round-trips through
Char.ofNat. -/
theorem toNat_ofNat_small (n : Nat) (h : n < 55296) : (Char.ofNat n).toNat = n := by
  simp [Char.ofNat, Nat.isValidChar, h, Char.toNat, Char.ofNatAux, UInt32.toNat,
    BitVec.toNat_ofNatLt]

/-- Characters with different code points are not boolean-equal. -/
theorem beq_char_eq_false (c d : Char) (h : c.toNat ≠ d.toNat) : (c == d) = false := by
  cases hcd : c == d
  · rfl
  · exact absurd (congrArg Char.toNat (beq_iff_eq.mp hcd)) h

/-- jsToLower never produces an uppercase ASCII letter. -/
theorem jsToLower_not_upper (a : Char) :
    ¬(65 ≤ (jsToLower a).toNat ∧ (jsToLower a).toNat ≤ 90) := by
  unfold jsToLower
  by_cases h : (65 ≤ a.toNat && a.toNat ≤ 90) = true
  · obtain ⟨h1, h2⟩ : 65 ≤ a.toNat ∧ a.toNat ≤ 90 := by simpa using h
    rw [if_pos h, toNat_ofNat_small _ (by omega)]
    omega
  · rw [if_neg h]
    simpa using h

/-- jsToLower fixes every character outside the uppercase ASCII range. -/
theorem jsToLower_eq_self (c : Char) (h : ¬(65 ≤ c.toNat ∧ c.toNat ≤ 90)) :
    jsToLower c = c := by
  unfold jsToLower
  rw [if_neg (by simpa using h)]

/-- Mapping a function that fixes every member of a list is the
identity. -/
theorem map_eq_self_of {f : Char → Char} : ∀ {l : List Char},
    (∀ c ∈ l, f c = c) → l.map f = l := by
  intro l
  induction l with
  | nil => intro _; rfl
  | cons a t ih =>
    intro h
    simp only [List.map_cons, h a (by simp), ih (fun c hc => h c (by simp [hc]))]

/-- dropWhile is the identity when no member satisfies the predicate. -/
theorem dropWhile_eq_self_of (p : Char → Bool) (l : List Char)
    (h : ∀ c ∈ l, p c = false) : l.dropWhile p = l := by
  cases l with
  | nil => rfl
  | cons a t => simp [List.dropWhile_cons, h a (by simp)]

/-- trimChars is the identity on lists without whitespace characters. -/
theorem trimChars_eq_self_of (l : List Char)
    (h : ∀ c ∈ l, isSpaceChar c = false) : trimChars l = l := by
  unfold trimChars
  rw [dropWhile_eq_self_of _ _ h,
    dropWhile_eq_self_of _ _ (fun c hc => h c (List.mem_reverse.mp hc)),
    List.reverse_reverse]

/-- Every character of a trimmed list comes from the original list. -/
theorem mem_trimChars {c : Char} {l : List Char} (h : c ∈ trimChars l) : c ∈ l := by
  unfold trimChars at h
  have h1 := List.mem_reverse.mp h
  have h2 := List.Sublist.mem h1 (List.dropWhile_sublist _)
  have h3 := List.mem_reverse.mp h2
  exact List.Sublist.mem h3 (List.dropWhile_sublist _)

/-- A successful find? splits the list at the first satisfying element:
everything before it fails the predicate. -/
theorem find?_eq_some_first {α : Type} (q : α → Bool) :
    ∀ (l : List α) (x : α),
      l.find? q = some x ↔
        ∃ l1 l2, l = l1 ++ x :: l2 ∧ q x = true ∧ ∀ a ∈ l1, q a = false := by
  intro l
  induction l with
  | nil =>
    intro x
    constructor
    · intro h
      simp [List.find?] at h
    · rintro ⟨l1, l2, heq, -, -⟩
      exact absurd heq (by simp)
  | cons a t ih =>
    intro x
    by_cases hqa : q a = true
    · rw [List.find?_cons_of_pos _ hqa]
      constructor
      · intro h
        have hax : a = x := by injection h
        subst hax
        exact ⟨[], t, rfl, hqa, by simp⟩
      · rintro ⟨l1, l2, heq, hqx, hall⟩
        cases l1 with
        | nil =>
          simp only [List.nil_append, List.cons.injEq] at heq
          rw [heq.1]
        | cons b l1x =>
          simp only [List.cons_append, List.cons.injEq] at heq
          have hb : q a = false := heq.1 ▸ hall b (by simp)
          rw [hb] at hqa
          cases hqa
    · have hqa2 : q a = false := by simpa using hqa
      rw [List.find?_cons_of_neg _ hqa, ih x]
      constructor
      · rintro ⟨l1, l2, heq, hqx, hall⟩
        refine ⟨a :: l1, l2, by rw [heq]; rfl, hqx, ?_⟩
        intro b hb
        rcases List.mem_cons.mp hb with rfl | hb2
        · exact hqa2
        · exact hall b hb2
      · rintro ⟨l1, l2, heq, hqx, hall⟩
        cases l1 with
        | nil =>
          simp only [List.nil_append, List.cons.injEq] at heq
          rw [heq.1] at hqa2
          rw [hqa2] at hqx
          cases hqx
        | cons b l1x =>
          simp only [List.cons_append, List.cons.injEq] at heq
          obtain ⟨-, htq⟩ := heq
          exact ⟨l1x, l2, htq, hqx, fun d hd => hall d (by simp [hd])⟩

/-- Every character of a run replacement is either the replacement
character or an original character outside every run. -/
theorem mem_replaceRunAux (p : Char → Bool) (r : Char) :
    ∀ (l : List Char) (b : Bool) (c : Char),
      c ∈ replaceRunAux p r b l → c = r ∨ (c ∈ l ∧ p c = false) := by
  intro l
  induction l with
  | nil =>
    intro b c h
    simp [replaceRunAux] at h
  | cons a t ih =>
    intro b c h
    by_cases hpa : p a = true
    · cases b with
      | true =>
        simp only [replaceRunAux, hpa, if_true] at h
        rcases ih true c h with h1 | ⟨h2, h3⟩
        · exact Or.inl h1
        · exact Or.inr ⟨List.mem_cons_of_mem _ h2, h3⟩
      | false =>
        simp only [replaceRunAux, hpa, if_true] at h
        rcases List.mem_cons.mp h with rfl | h2
        · exact Or.inl rfl
        · rcases ih true c h2 with h3 | ⟨h4, h5⟩
          · exact Or.inl h3
          · exact Or.inr ⟨List.mem_cons_of_mem _ h4, h5⟩
    · have hpa2 : p a = false := by simpa using hpa
      simp only [replaceRunAux, hpa2, Bool.false_eq_true, if_false] at h
      rcases List.mem_cons.mp h with rfl | h2
      · exact Or.inr ⟨List.mem_cons_self _ _, hpa2⟩
      · rcases ih false c h2 with h3 | ⟨h4, h5⟩
        · exact Or.inl h3
        · exact Or.inr ⟨List.mem_cons_of_mem _ h4, h5⟩

/-- Run replacement is the identity when no character matches. -/
theorem replaceRunAux_eq_self_of (p : Char → Bool) (r : Char) :
    ∀ (l : List Char) (b : Bool),
      (∀ c ∈ l, p c = false) → replaceRunAux p r b l = l := by
  intro l
  induction l with
  | nil =>
    intro b _
    rfl
  | cons a t ih =>
    intro b h
    simp only [replaceRunAux, h a (by simp), Bool.false_eq_true, if_false]
    rw [ih false (fun c hc => h c (by simp [hc]))]

/-- The adjacency invariant restricts to the tail. -/
theorem noTwoAdjacent_tail (p : Char → Bool) (a : Char) (l : List Char)
    (h : noTwoAdjacent p (a :: l) = true) : noTwoAdjacent p l = true := by
  cases l with
  | nil => rfl
  | cons b t =>
    simp only [noTwoAdjacent, Bool.and_eq_true] at h
    exact h.2

/-- Consing preserves the adjacency invariant when the new head does not
clash with the old head. -/
theorem noTwoAdjacent_cons (p : Char → Bool) (a : Char) (l : List Char)
    (h1 : noTwoAdjacent p l = true)
    (h2 : ∀ b, l.head? = some b → (p a && p b) = false) :
    noTwoAdjacent p (a :: l) = true := by
  cases l with
  | nil => rfl
  | cons b t =>
    have hb := h2 b rfl
    simp only [noTwoAdjacent, Bool.and_eq_true, Bool.not_eq_true']
    exact ⟨hb, h1⟩

/-- After a run replacement no two adjacent characters match the
predicate, and a replacement started inside a run never emits a
matching head. -/
theorem replaceRunAux_sep (p : Char → Bool) (r : Char) :
    ∀ l : List Char,
      (noTwoAdjacent p (replaceRunAux p r true l) = true ∧
        ∀ c, (replaceRunAux p r true l).head? = some c → p c = false) ∧
      noTwoAdjacent p (replaceRunAux p r false l) = true := by
  intro l
  induction l with
  | nil =>
    refine ⟨⟨rfl, ?_⟩, rfl⟩
    intro c h
    simp [replaceRunAux] at h
  | cons a t ih =>
    obtain ⟨⟨ihA, ihHead⟩, ihB⟩ := ih
    by_cases hpa : p a = true
    · constructor
      · simpa only [replaceRunAux, hpa, if_true] using ⟨ihA, ihHead⟩
      · simp only [replaceRunAux, hpa, if_true]
        refine noTwoAdjacent_cons p r _ ihA ?_
        intro b hb
        rw [ihHead b hb]
        simp
    · have hpa2 : p a = false := by simpa using hpa
      have hstep : ∀ b : Bool, replaceRunAux p r b (a :: t) = a :: replaceRunAux p r false t := by
        intro b
        cases b <;> simp only [replaceRunAux, hpa2, Bool.false_eq_true, if_false]
      have hcons : noTwoAdjacent p (a :: replaceRunAux p r false t) = true := by
        refine noTwoAdjacent_cons p a _ ihB ?_
        intro b _
        rw [hpa2]
        simp
      refine ⟨⟨?_, ?_⟩, ?_⟩
      · rw [hstep true]
        exact hcons
      · intro c hc
        rw [hstep true] at hc
        simp only [List.head?_cons, Option.some.injEq] at hc
        rw [← hc]
        exact hpa2
      · rw [hstep false]
        exact hcons

/-- A list all of whose matching characters equal the replacement
character, with no two adjacent matches, is fixed by run replacement. -/
theorem replaceRunAux_id (p : Char → Bool) (r : Char) :
    ∀ l : List Char,
      (∀ c ∈ l, p c = true → c = r) →
      noTwoAdjacent p l = true →
      replaceRunAux p r false l = l := by
  intro l
  induction l with
  | nil =>
    intro _ _
    rfl
  | cons a t ih =>
    intro hmem hadj
    by_cases hpa : p a = true
    · have har : a = r := hmem a (by simp) hpa
      cases t with
      | nil => simp [replaceRunAux, hpa, har]
      | cons b t2 =>
        have hpb : p b = false := by
          have hA : (!(p a && p b)) = true := by
            have := hadj
            simp only [noTwoAdjacent, Bool.and_eq_true] at this
            exact this.1
          simp only [hpa, Bool.true_and, Bool.not_eq_true'] at hA
          exact hA
        have hT : replaceRunAux p r false (b :: t2) = b :: t2 :=
          ih (fun c hc hpc => hmem c (by simp [hc]) hpc) (noTwoAdjacent_tail p a _ hadj)
        have hT2 : replaceRunAux p r false t2 = t2 := by
          have := hT
          simp only [replaceRunAux, hpb, Bool.false_eq_true, if_false,
            List.cons.injEq] at this
          exact this.2
        simp only [replaceRunAux, hpa, if_true, hpb, Bool.false_eq_true, if_false]
        rw [hT2, har]
    · have hpa2 : p a = false := by simpa using hpa
      have hT : replaceRunAux p r false t = t :=
        ih (fun c hc hpc => hmem c (by simp [hc]) hpc) (noTwoAdjacent_tail p a _ hadj)
      simp only [replaceRunAux, hpa2, Bool.false_eq_true, if_false]
      rw [hT]

/-- A kept character that is neither whitespace nor an uppercase ASCII
letter is a valid slug character. -/
theorem isSlugChar_of_keep {c : Char} (hkeep : keepChar c = true)
    (hsp : isSpaceChar c = false)
    (hup : ¬(65 ≤ c.toNat ∧ c.toNat ≤ 90)) : isSlugChar c = true := by
  unfold keepChar at hkeep
  simp only [Bool.or_eq_true] at hkeep
  rcases hkeep with (hw | hs) | hh
  · unfold isWordChar isAsciiLetterChar isDigitChar at hw
    simp only [Bool.or_eq_true, Bool.and_eq_true, decide_eq_true_eq, beq_iff_eq] at hw
    unfold isSlugChar isDigitChar
    simp only [Bool.or_eq_true, Bool.and_eq_true, decide_eq_true_eq, beq_iff_eq]
    rcases hw with ((h65 | h97) | hd) | hu
    · exact absurd h65 hup
    · exact Or.inl (Or.inl (Or.inl h97))
    · exact Or.inl (Or.inl (Or.inr hd))
    · exact Or.inl (Or.inr hu)
  · rw [hsp] at hs
    cases hs
  · have : c = '-' := beq_iff_eq.mp hh
    rw [this]
    decide

/-- Prop-level case analysis of a slug character. -/
theorem isSlugChar_cases {c : Char} (h : isSlugChar c = true) :
    (97 ≤ c.toNat ∧ c.toNat ≤ 122) ∨ (48 ≤ c.toNat ∧ c.toNat ≤ 57) ∨
      c = '_' ∨ c = '-' := by
  unfold isSlugChar isDigitChar at h
  simp only [Bool.or_eq_true, Bool.and_eq_true, decide_eq_true_eq, beq_iff_eq] at h
  tauto

/-- Whitespace test is false on a character whose code point avoids the
six ASCII whitespace code points. -/
theorem isSpaceChar_eq_false_of_toNat {c : Char}
    (h : c.toNat ≠ 32 ∧ c.toNat ≠ 9 ∧ c.toNat ≠ 10 ∧ c.toNat ≠ 11 ∧
      c.toNat ≠ 12 ∧ c.toNat ≠ 13) :
    isSpaceChar c = false := by
  obtain ⟨h1, h2, h3, h4, h5, h6⟩ := h
  unfold isSpaceChar
  rw [beq_char_eq_false c ' ' h1, beq_char_eq_false c '\t' h2,
    beq_char_eq_false c '\n' h3, beq_char_eq_false c '\x0b' h4,
    beq_char_eq_false c '\x0c' h5, beq_char_eq_false c '\r' h6]
  rfl

/-- A slug character is fixed by jsToLower, is not whitespace, and
survives the special-character filter. -/
theorem isSlugChar_props {c : Char} (h : isSlugChar c = true) :
    jsToLower c = c ∧ isSpaceChar c = false ∧ keepChar c = true := by
  rcases isSlugChar_cases h with h1 | h2 | h3 | h4
  · have hA : isAsciiLetterChar c = true := by
      unfold isAsciiLetterChar
      simp only [Bool.or_eq_true, Bool.and_eq_true, decide_eq_true_eq]
      omega
    have hW : isWordChar c = true := by
      unfold isWordChar
      rw [hA]
      rfl
    refine ⟨jsToLower_eq_self c (by omega), isSpaceChar_eq_false_of_toNat (by omega), ?_⟩
    unfold keepChar
    rw [hW]
    rfl
  · have hD : isDigitChar c = true := by
      unfold isDigitChar
      simp only [Bool.and_eq_true, decide_eq_true_eq]
      omega
    have hW : isWordChar c = true := by
      unfold isWordChar
      rw [hD]
      simp
    refine ⟨jsToLower_eq_self c (by omega), isSpaceChar_eq_false_of_toNat (by omega), ?_⟩
    unfold keepChar
    rw [hW]
    rfl
  · rw [h3]
    refine ⟨by decide, by decide, by decide⟩
  · rw [h4]
    refine ⟨by decide, by decide, by decide⟩

/-- Every character of a derived slug is a lowercase ASCII letter, a
digit, an underscore, or a hyphen. -/
theorem slugifyChars_mem (l : List Char) :
    ∀ c ∈ slugifyChars l, isSlugChar c = true := by
  intro c hc
  unfold slugifyChars replaceRun at hc
  rcases mem_replaceRunAux _ _ _ _ c hc with rfl | ⟨hc1, _⟩
  · decide
  · rcases mem_replaceRunAux _ _ _ _ c hc1 with rfl | ⟨hc2, hsp⟩
    · decide
    · obtain ⟨hc3, hkeep⟩ := List.mem_filter.mp hc2
      have hc4 := mem_trimChars hc3
      obtain ⟨a, -, rfl⟩ := List.mem_map.mp hc4
      exact isSlugChar_of_keep hkeep hsp (jsToLower_not_upper a)

/-- The hyphen-collapse invariant of a derived slug: no two adjacent
hyphens. -/
theorem slugifyChars_noTwoAdjacent (l : List Char) :
    noTwoAdjacent (fun c => c == '-') (slugifyChars l) = true := by
  unfold slugifyChars replaceRun
  exact (replaceRunAux_sep _ _ _).2

/-- slugify is idempotent at the character-list level. -/
theorem slugifyChars_idem (l : List Char) :
    slugifyChars (slugifyChars l) = slugifyChars l := by
  have hmem := slugifyChars_mem l
  have hadj := slugifyChars_noTwoAdjacent l
  have hprops : ∀ c ∈ slugifyChars l,
      jsToLower c = c ∧ isSpaceChar c = false ∧ keepChar c = true :=
    fun c hc => isSlugChar_props (hmem c hc)
  conv_lhs => rw [slugifyChars]
  rw [map_eq_self_of (fun c hc => (hprops c hc).1)]
  rw [trimChars_eq_self_of _ (fun c hc => (hprops c hc).2.1)]
  rw [List.filter_eq_self.mpr (fun c hc => (hprops c hc).2.2)]
  unfold replaceRun
  rw [replaceRunAux_eq_self_of _ _ _ _ (fun c hc => (hprops c hc).2.1)]
  exact replaceRunAux_id _ _ _
    (fun c _ hpc => beq_iff_eq.mp hpc) hadj

/-- C1 counterexample: the claimed step 3 removes hyphens, but the code
keeps them, so on the input "a-b" the code yields "a-b" while the
claimed five-step pipeline yields "ab". -/
theorem slugify_spec_step3_counterexample :
    slugify "a-b" ≠ slugifySpecClaimed "a-b" ∧
    slugify "a-b" = "a-b" ∧ slugifySpecClaimed "a-b" = "ab" :=
  ⟨by decide, by decide, by decide⟩

/-- C1 (amended): slugify equals the five spec steps applied in order,
with step 3 keeping hyphens in addition to letters, digits, underscores
and whitespace. -/
theorem slugify_eq_spec_pipeline (s : String) : slugify s = slugifySpecAmended s :=
  rfl

/-- C2: getBySlug returns none exactly when no product derives the
requested slug, and returns some p exactly when p is the first product
in collection order whose derived slug equals the argument; an earlier
position never derives the slug, so a later duplicate is unreachable. -/
theorem getProductBySlug_spec (ps : List Product) (s : String) :
    (getProductBySlug ps s = none ↔ ∀ p ∈ ps, slugify p.name ≠ s) ∧
    (∀ p : Product, getProductBySlug ps s = some p ↔
      ∃ pre post, ps = pre ++ p :: post ∧ slugify p.name = s ∧
        ∀ q ∈ pre, slugify q.name ≠ s) := by
  constructor
  · rw [getProductBySlug, List.find?_eq_none]
    constructor
    · intro h p hp
      simpa using h p hp
    · intro h p hp
      simpa using h p hp
  · intro p
    rw [getProductBySlug, find?_eq_some_first]
    constructor
    · rintro ⟨l1, l2, heq, hq, hall⟩
      exact ⟨l1, l2, heq, by simpa using hq, fun q hq2 => by simpa using hall q hq2⟩
    · rintro ⟨l1, l2, heq, hq, hall⟩
      refine ⟨l1, l2, heq, by simpa using hq, fun q hq2 => ?_⟩
      rw [beq_eq_false_iff_ne]
      exact hall q hq2

/-- C2 witness: the characterization evaluated on the demo collection
with the slug of the second product. -/
theorem getProductBySlug_spec_witness :
    (getProductBySlug demoProducts "gadget" = none ↔
      ∀ p ∈ demoProducts, slugify p.name ≠ "gadget") ∧
    (∀ p : Product, getProductBySlug demoProducts "gadget" = some p ↔
      ∃ pre post, demoProducts = pre ++ p :: post ∧ slugify p.name = "gadget" ∧
        ∀ q ∈ pre, slugify q.name ≠ "gadget") :=
  getProductBySlug_spec demoProducts "gadget"

/-- C3: the GET /products/:id handler answers 404 with the error body
both when the id does not parse as an integer and when it parses to a
value matching no product. -/
theorem productByIdRoute_notFound (ps : List Product) (idStr : String) :
    (jsParseInt idStr = none →
      productByIdRoute ps idStr = RouteResult.missing 404 "Product not found") ∧
    (∀ n : Int, jsParseInt idStr = some n → (∀ p ∈ ps, p.id ≠ n) →
      productByIdRoute ps idStr = RouteResult.missing 404 "Product not found") := by
  constructor
  · intro h
    unfold productByIdRoute
    rw [h]
    rfl
  · intro n hn hnone
    have hfind : getProductById ps n = none := by
      rw [getProductById, List.find?_eq_none]
      intro p hp
      simpa using hnone p hp
    unfold productByIdRoute
    rw [hn]
    simp only [lookupParsedId]
    rw [hfind]

/-- C3 witness: an unparsable id and a parsable-but-absent id both
produce the 404 error on the demo collection. -/
theorem productByIdRoute_notFound_witness :
    productByIdRoute demoProducts "abc" = RouteResult.missing 404 "Product not found" ∧
    productByIdRoute demoProducts "99" = RouteResult.missing 404 "Product not found" :=
  ⟨(productByIdRoute_notFound demoProducts "abc").1 (by decide),
   (productByIdRoute_notFound demoProducts "99").2 99 (by decide) (by decide)⟩

/-- C4: slugify is idempotent; every output is a fixed point. -/
theorem slugify_idem (s : String) : slugify (slugify s) = slugify s :=
  congrArg String.mk (slugifyChars_idem s.data)

/-- C5: input hyphens survive normalization and hyphen runs collapse to
a single hyphen. -/
theorem slugify_hyphen_collapse : slugify "a---b" = "a-b" := by decide

/-- C6: getById returns none exactly when no product carries the id,
returns some p exactly when p is the first product in collection order
with that id, returns none for every nonpositive id when all ids of the
collection are positive, and the NaN lookup finds nothing. -/
theorem getProductById_spec (ps : List Product) (n : Int) :
    (getProductById ps n = none ↔ ∀ p ∈ ps, p.id ≠ n) ∧
    (∀ p : Product, getProductById ps n = some p ↔
      ∃ pre post, ps = pre ++ p :: post ∧ p.id = n ∧ ∀ q ∈ pre, q.id ≠ n) ∧
    ((∀ p ∈ ps, 0 < p.id) → n ≤ 0 → getProductById ps n = none) ∧
    lookupParsedId ps none = none := by
  refine ⟨?_, ?_, ?_, rfl⟩
  · rw [getProductById, List.find?_eq_none]
    constructor
    · intro h p hp
      simpa using h p hp
    · intro h p hp
      simpa using h p hp
  · intro p
    rw [getProductById, find?_eq_some_first]
    constructor
    · rintro ⟨l1, l2, heq, hq, hall⟩
      exact ⟨l1, l2, heq, by simpa using hq, fun q hq2 => by simpa using hall q hq2⟩
    · rintro ⟨l1, l2, heq, hq, hall⟩
      refine ⟨l1, l2, heq, by simpa using hq, fun q hq2 => ?_⟩
      rw [beq_eq_false_iff_ne]
      exact hall q hq2
  · intro hpos hn
    rw [getProductById, List.find?_eq_none]
    intro p hp
    have := hpos p hp
    simp only [beq_iff_eq]
    intro he
    omega

/-- C6 witness: id zero finds nothing in the demo collection, whose ids
are positive, and the NaN lookup finds nothing. -/
theorem getProductById_spec_witness :
    getProductById demoProducts 0 = none ∧ lookupParsedId demoProducts none = none :=
  ⟨(getProductById_spec demoProducts 0).2.2.1 (by decide) (by decide),
   (getProductById_spec demoProducts 0).2.2.2⟩

/-- C7: the GET /products handler returns one response per product, in
collection order, the i-th response being the i-th product augmented
with its derived slug, all other fields unchanged; the empty collection
yields the empty list. -/
theorem listProductsRoute_spec (ps : List Product) :
    (listProductsRoute ps).length = ps.length ∧
    (∀ i : Nat, (listProductsRoute ps)[i]? = (getProducts ps)[i]?.map toProductResponse) ∧
    (∀ p : Product, (toProductResponse p).id = p.id ∧
      (toProductResponse p).name = p.name ∧
      (toProductResponse p).price = p.price ∧
      (toProductResponse p).inStock = p.inStock ∧
      (toProductResponse p).slug = slugify p.name) ∧
    listProductsRoute [] = [] := by
  refine ⟨?_, ?_, fun p => ⟨rfl, rfl, rfl, rfl, rfl⟩, rfl⟩
  · simp [listProductsRoute, getProducts]
  · intro i
    simp [listProductsRoute, getProducts, List.getElem?_map]

/-- C8: formatPrice throws on every negative input and renders every
nonnegative input as the major-unit amount with exactly two decimal
places; the three boundary examples evaluate as specified. -/
theorem formatPrice_spec (c : Int) :
    (c < 0 → formatPrice c = Except.error "Price cannot be negative") ∧
    (0 ≤ c → ∃ frac : String, frac.length = 2 ∧
      formatPrice c = Except.ok ("$" ++ (toString (c.toNat / 100) ++ "." ++ frac))) ∧
    formatPrice 0 = Except.ok "$0.00" ∧
    formatPrice 99 = Except.ok "$0.99" ∧
    formatPrice 123456 = Except.ok "$1234.56" := by
  refine ⟨?_, ?_, rfl, rfl, rfl⟩
  · intro h
    unfold formatPrice
    rw [if_pos h]
  · intro h
    refine ⟨String.mk [Char.ofNat (48 + c.toNat % 100 / 10), Char.ofNat (48 + c.toNat % 10)],
      rfl, ?_⟩
    unfold formatPrice
    rw [if_neg (by omega)]
    rfl

/-- C8 witness: the error case at cents -1 and the shape case at cents
123456. -/
theorem formatPrice_spec_witness :
    formatPrice (-1) = Except.error "Price cannot be negative" ∧
    (∃ frac : String, frac.length = 2 ∧
      formatPrice 123456 = Except.ok ("$" ++ (toString ((123456 : Int).toNat / 100) ++ "." ++ frac))) :=
  ⟨(formatPrice_spec (-1)).1 (by decide), (formatPrice_spec 123456).2.1 (by decide)⟩

/-- C9: every character of a derived slug is a lowercase ASCII letter, a
decimal digit, an underscore, or a hyphen; it is never whitespace and
never an uppercase ASCII letter. -/
theorem slugify_output_chars (s : String) :
    ∀ c ∈ (slugify s).data, isSlugChar c = true ∧ isSpaceChar c = false ∧
      ¬(65 ≤ c.toNat ∧ c.toNat ≤ 90) := by
  intro c hc
  have h1 : isSlugChar c = true := slugifyChars_mem s.data c hc
  refine ⟨h1, (isSlugChar_props h1).2.1, ?_⟩
  rcases isSlugChar_cases h1 with h | h | h | h
  · omega
  · omega
  · rw [h]
    decide
  · rw [h]
    decide

/-- C9 witness: the hyphen produced by slugify on a spaced name is a
slug character, not whitespace, not uppercase. -/
theorem slugify_output_chars_witness :
    isSlugChar '-' = true ∧ isSpaceChar '-' = false ∧
      ¬(65 ≤ '-'.toNat ∧ '-'.toNat ≤ 90) :=
  slugify_output_chars "a b" '-' (by decide)

/-- Under pairwise distinct derived slugs, looking a product's own slug
up returns that product. -/
theorem getBySlug_of_pairwise :
    ∀ ps : List Product,
      List.Pairwise (fun p q => slugify p.name ≠ slugify q.name) ps →
      ∀ p ∈ ps, getProductBySlug ps (slugify p.name) = some p := by
  intro ps
  induction ps with
  | nil =>
    intro _ p hp
    cases hp
  | cons a t ih =>
    intro hpw p hp
    rcases List.mem_cons.mp hp with rfl | hp2
    · rw [getProductBySlug, List.find?_cons_of_pos _ (by simp)]
    · have hhead := (List.pairwise_cons.mp hpw).1 p hp2
      rw [getProductBySlug, List.find?_cons_of_neg _ (by simpa using hhead)]
      exact ih (List.pairwise_cons.mp hpw).2 p hp2

/-- C10: when derived slugs are pairwise distinct, the slug round-trip
returns the product itself; in general it returns the first product in
collection order sharing the derived slug. -/
theorem getProductBySlug_roundtrip (ps : List Product) :
    (List.Pairwise (fun p q => slugify p.name ≠ slugify q.name) ps →
      ∀ p ∈ ps, getProductBySlug ps (slugify p.name) = some p) ∧
    (∀ p ∈ ps, ∃ q pre post, ps = pre ++ q :: post ∧
      slugify q.name = slugify p.name ∧
      (∀ a ∈ pre, slugify a.name ≠ slugify p.name) ∧
      getProductBySlug ps (slugify p.name) = some q) := by
  constructor
  · exact getBySlug_of_pairwise ps
  · intro p hp
    have hsome : (getProductBySlug ps (slugify p.name)).isSome = true := by
      rw [getProductBySlug, List.find?_isSome]
      exact ⟨p, hp, by simp⟩
    obtain ⟨q, hq⟩ := Option.isSome_iff_exists.mp hsome
    have hq2 := hq
    rw [getProductBySlug, find?_eq_some_first] at hq2
    obtain ⟨pre, post, heq, hmatch, hall⟩ := hq2
    refine ⟨q, pre, post, heq, by simpa using hmatch, fun a ha => ?_, hq⟩
    have := hall a ha
    rwa [beq_eq_false_iff_ne] at this

/-- C10 witness: the round-trip on the demo collection, whose two
derived slugs are distinct. -/
theorem getProductBySlug_roundtrip_witness :
    getProductBySlug demoProducts (slugify widget.name) = some widget ∧
    getProductBySlug demoProducts (slugify gadget.name) = some gadget :=
  ⟨(getProductBySlug_roundtrip demoProducts).1 (by decide) widget (by decide),
   (getProductBySlug_roundtrip demoProducts).1 (by decide) gadget (by decide)⟩
